import Mathlib

/-!
Verification of the time-partitioned cursor pagination and checkpointed
ingestion core of the sendftpfilestos3 repository.

Two components are embedded, faithfully translated from the Python source:

* the pagination aggregator of `lambda-functions/last5Videos_v3.py`
  (`lambda_handler` together with `query_videos`), and
* the ingestion checkpoint engine of `SecurityImageAnalysis/labels_to_graph.py`
  (`get_query_items_since_checkpoint`, `process_response_items`,
  `fetch_checkpoint`).

Modelling conventions:

* Calendar dates ("YYYY-MM-DD" strings in the source) are modelled as epoch day
  numbers (`Nat`); decrementing a date by one day (`time.mktime(...) - 86400`)
  is `d - 1`, and `datetime.fromtimestamp(t).strftime(%Y-%m-%d)` is `t / 86400`.
* Event timestamps are `Nat`.
* The DynamoDB store is an external collaborator; it is modelled after the
  PartitionedStore contract of the specification: a query evaluates at most
  `Limit` records that satisfy the key condition, in sort-key order for the
  requested direction, applies any filter expression only after that page was
  cut, and returns a continuation key exactly when more records satisfying the
  key condition remain in the partition.
* boto3 responses omit the `LastEvaluatedKey` entry when there is no
  continuation; that is modelled as `Option` (`none` = entry absent).
* S3 and the signed-URI decoration (`generate_signed_uri`) do not change the
  identity, order or count of items and are not modelled; CORS and HTTP
  framing are outside the embedded core.
* Store queries are additionally recorded in an instrumentation log
  (`QueryLog` values) so that theorems can speak about which partitions were
  queried and with which raw page size; the log mirrors the arguments the code
  passes to `table.query`.
-/

/-! ## Pagination aggregator: last5Videos_v3.py -/

/-- A record of the `security_video_timeline` / `security_alarm_videos`
tables: partition keys `capture_date` (timeline) or `camera_name` (per
camera), sort key `event_ts`. -/
structure VideoRec where
  capture_date : Nat
  event_ts : Nat
  camera_name : String
deriving DecidableEq, Repr

/-- A DynamoDB `LastEvaluatedKey`: the primary key of the last evaluated
item.  The handler also synthesises a date-only key (line 209), hence all
fields are optional. -/
structure Lek where
  capture_date : Option Nat := none
  event_ts : Option Nat := none
  camera_name : Option String := none
deriving DecidableEq, Repr

/-- A DynamoDB query response as consumed by the handler. -/
structure DDBResp where
  Items : List VideoRec
  Count : Nat
  ScannedCount : Nat
  LastEvaluatedKey : Option Lek
deriving DecidableEq, Repr

/-- Instrumentation: one entry per `table.query` call, recording the table,
the partition value and the arguments passed. -/
structure QueryLog where
  table : String
  date : Option Nat
  camera : Option String
  limit : Nat
  older : Option Nat
  newer : Option Nat
deriving DecidableEq, Repr

/-- The two DynamoDB tables used by `query_videos`. -/
structure Store where
  timeline : List VideoRec
  byCamera : List VideoRec
deriving Repr

/-- Sort-key order on video records. -/
def tsRelV (a b : VideoRec) : Prop := a.event_ts ≤ b.event_ts

instance : DecidableRel tsRelV := fun a b => Nat.decLe a.event_ts b.event_ts

instance : IsTotal VideoRec tsRelV := ⟨fun a b => Nat.le_total a.event_ts b.event_ts⟩

instance : IsTrans VideoRec tsRelV := ⟨fun _ _ _ h₁ h₂ => Nat.le_trans h₁ h₂⟩

/-- The sort-key condition of `query_videos`: `lt` when `older_than_ts` is
given, else `gt` when `newer_than_ts` is given, else unbounded (lines
236-241 and 258-263; `older` takes precedence through `elif`). -/
def rangeOk (older newer : Option Nat) (r : VideoRec) : Bool :=
  match older with
  | some t => Nat.blt r.event_ts t
  | none =>
    match newer with
    | some t => Nat.blt t r.event_ts
    | none => true

/-- Continuation key built from the last evaluated timeline item. -/
def mkLekTimeline : Option VideoRec → Option Lek
  | some r => some { capture_date := some r.capture_date, event_ts := some r.event_ts }
  | none => none

/-- Continuation key built from the last evaluated per-camera item. -/
def mkLekCamera : Option VideoRec → Option Lek
  | some r => some { camera_name := some r.camera_name, event_ts := some r.event_ts }
  | none => none

/-- Function `query_videos` (last5Videos_v3.py lines 221-281): build and execute the
DynamoDB query.  Camera timeline when a camera is given and no date;
otherwise the daily timeline by `capture_date`, with the raw limit forced to
100 when a filter expression is present (line 266).  Returns the store
response together with the instrumentation record of the issued query. -/
def query_videos (store : Store) (camera_name : Option String) (video_date : Option Nat)
    (today : Nat) (filter_expression : Option (VideoRec → Bool)) (num_results : Nat)
    (older_than_ts newer_than_ts : Option Nat) : DDBResp × QueryLog :=
  let by_camera := camera_name.isSome && video_date.isNone
  if by_camera then
    let cand := store.byCamera.filter
      (fun r => (r.camera_name == camera_name.getD "") && rangeOk older_than_ts newer_than_ts r)
    let scan_forward := older_than_ts.isNone && newer_than_ts.isSome
    let sorted := List.insertionSort tsRelV cand
    let ordered := if scan_forward then sorted else sorted.reverse
    let evaluated := ordered.take num_results
    let lek := if num_results < cand.length then mkLekCamera evaluated.getLast? else none
    ({ Items := evaluated, Count := evaluated.length, ScannedCount := evaluated.length,
       LastEvaluatedKey := lek },
     { table := "security_alarm_videos", date := none, camera := camera_name,
       limit := num_results, older := older_than_ts, newer := newer_than_ts })
  else
    let date := video_date.getD today
    let lim := if filter_expression.isSome then 100 else num_results
    let cand := store.timeline.filter
      (fun r => (r.capture_date == date) && rangeOk older_than_ts newer_than_ts r)
    let scan_forward := older_than_ts.isNone && newer_than_ts.isSome
    let sorted := List.insertionSort tsRelV cand
    let ordered := if scan_forward then sorted else sorted.reverse
    let evaluated := ordered.take lim
    let items := match filter_expression with
      | some f => evaluated.filter f
      | none => evaluated
    let lek := if lim < cand.length then mkLekTimeline evaluated.getLast? else none
    ({ Items := items, Count := items.length, ScannedCount := evaluated.length,
       LastEvaluatedKey := lek },
     { table := "security_video_timeline", date := some date, camera := none,
       limit := lim, older := older_than_ts, newer := newer_than_ts })

/-- A named filter definition from the camera metadata catalog
(`camera_metadata.filters[name]`): an operator plus its value.  The source
keeps a single `value` key; string-valued operators read `value`, the `in`
operator reads it as a list, modelled by the extra `valueList` field. -/
structure FilterDef where
  operator : String
  value : String
  valueList : List String := []
deriving DecidableEq, Repr

/-- Python substring containment `needle in hay` as used by DynamoDB
`Attr(...).contains` on a string attribute. -/
def strContains (hay needle : String) : Bool :=
  hay.toList.tails.any (fun t => needle.toList.isPrefixOf t)

/-- Lines 104-109 of last5Videos_v3.py: three independent `if` statements
translate the operator; an operator matching none of them leaves
`filter_expression = None`. -/
def buildFilterExpression (fd : FilterDef) : Option (VideoRec → Bool) :=
  let fe : Option (VideoRec → Bool) := none
  let fe := if fd.operator == "contains"
    then some (fun r => strContains r.camera_name fd.value) else fe
  let fe := if fd.operator == "not_contains"
    then some (fun r => !(strContains r.camera_name fd.value)) else fe
  let fe := if fd.operator == "in"
    then some (fun r => fd.valueList.contains r.camera_name) else fe
  fe

/-- Mutable state of the pagination while-loop of `lambda_handler`
(lines 151-200), plus the instrumentation log. -/
structure LoopState where
  video_date : Option Nat
  older_than_ts : Option Nat
  ddb : DDBResp
  consItems : List VideoRec
  consCount : Nat
  request_num : Nat
  queries : List QueryLog
deriving DecidableEq, Repr

/-- The consolidated response returned to the caller. -/
structure ApiResp where
  Items : List VideoRec
  Count : Nat
  LastEvaluatedKey : Option Lek
  DynDBRequests : Nat
deriving DecidableEq, Repr

/-- Result of running the handler: a response, or fuel exhaustion of the
unbounded while-loop, or the `TypeError` that `time.strptime(None, ...)`
raises at line 206 when the loop finishes in camera mode without a
continuation key. -/
inductive Outcome where
  | ok (resp : ApiResp) (queries : List QueryLog)
  | fuelOut (s : LoopState)
  | typeError (s : LoopState)
deriving DecidableEq, Repr

/-- One iteration body of the while-loop (lines 152-200): follow the
continuation key when present, otherwise in date mode decrement the day and
requery from the start of that day; in camera mode with no continuation key
neither branch runs.  Afterwards the items and count of the (possibly stale)
last response are appended to the consolidated response. -/
def loopStep (store : Store) (camera_name : Option String) (today : Nat)
    (fe : Option (VideoRec → Bool)) (newer_than_ts : Option Nat) (requested : Nat)
    (s : LoopState) : LoopState :=
  let s1 :=
    match s.ddb.LastEvaluatedKey with
    | some lek =>
      let rq := query_videos store camera_name s.video_date today fe
        (requested - s.consCount) lek.event_ts newer_than_ts
      { s with older_than_ts := lek.event_ts, ddb := rq.1, queries := s.queries ++ [rq.2] }
    | none =>
      if camera_name.isNone && s.video_date.isSome then
        let d := s.video_date.getD 0 - 1
        let rq := query_videos store camera_name (some d) today fe
          (requested - s.consCount) none newer_than_ts
        { s with video_date := some d, older_than_ts := none, ddb := rq.1,
                 queries := s.queries ++ [rq.2] }
      else s
  { s1 with request_num := s1.request_num + 1,
            consItems := s1.consItems ++ s1.ddb.Items,
            consCount := s1.consCount + s1.ddb.Count }

/-- Loop outcome: `done` when the guard failed, `more` when fuel ran out
with the guard still true. -/
inductive LoopOut where
  | done (s : LoopState)
  | more (s : LoopState)
deriving DecidableEq, Repr

/-- The while-loop (line 151), guarded by `Count < requested_results`; the
`fetch_more_than_one` conjunct is constant inside the loop and is handled by
the caller.  Fuel counts loop iterations, since the source loop has no
iteration guard of its own. -/
def runLoop (store : Store) (camera_name : Option String) (today : Nat)
    (fe : Option (VideoRec → Bool)) (newer_than_ts : Option Nat) (requested : Nat) :
    Nat → LoopState → LoopOut
  | 0, s => if s.consCount < requested then .more s else .done s
  | f + 1, s =>
    if s.consCount < requested then
      runLoop store camera_name today fe newer_than_ts requested f
        (loopStep store camera_name today fe newer_than_ts requested s)
    else .done s

/-- The pagination core of `lambda_handler` (lines 56-218), after input
parsing: the date defaults to today only when no camera is given (lines
70-73); the first query is issued; `fetch_more_than_one` is decided (lines
129-137); when no further fetch is wanted the code aliases
`consolidated_response = ddb_response` and then extends its item list with
itself (lines 139-145), duplicating the page; otherwise the while-loop runs
and the final continuation key is taken from the last response or
synthesised from the previous day (lines 202-211). -/
def lambda_handler_core (store : Store) (today : Nat) (camera_name : Option String)
    (video_date_in : Option Nat) (fe : Option (VideoRec → Bool)) (num_results : Nat)
    (older0 newer0 : Option Nat) (fuel : Nat) : Outcome :=
  let video_date := if camera_name.isNone && video_date_in.isNone
    then some today else video_date_in
  let rq1 := query_videos store camera_name video_date today fe num_results older0 newer0
  let r1 := rq1.1
  let requested := num_results
  let fetch_more := if r1.Count < requested then newer0.isNone else false
  if fetch_more then
    let s0 : LoopState :=
      { video_date := video_date, older_than_ts := older0, ddb := r1,
        consItems := r1.Items, consCount := r1.Count, request_num := 1,
        queries := [rq1.2] }
    match runLoop store camera_name today fe newer0 requested fuel s0 with
    | .more s => .fuelOut s
    | .done s =>
      if s.ddb.LastEvaluatedKey.isSome then
        .ok { Items := s.consItems, Count := s.consCount,
              LastEvaluatedKey := s.ddb.LastEvaluatedKey,
              DynDBRequests := s.request_num } s.queries
      else
        match s.video_date with
        | some d =>
          .ok { Items := s.consItems, Count := s.consCount,
                LastEvaluatedKey := some { capture_date := some (d - 1) },
                DynDBRequests := s.request_num } s.queries
        | none => .typeError s
  else
    .ok { Items := r1.Items ++ r1.Items, Count := r1.Count + r1.Count,
          LastEvaluatedKey := r1.LastEvaluatedKey, DynDBRequests := 1 } [rq1.2]

/-- The handler with filter resolution: a supplied filter definition is
translated by `buildFilterExpression` (an unknown operator leaves the
expression absent). -/
def lambda_handler (store : Store) (today : Nat) (camera_name : Option String)
    (video_date_in : Option Nat) (fdef : Option FilterDef) (num_results : Nat)
    (older0 newer0 : Option Nat) (fuel : Nat) : Outcome :=
  lambda_handler_core store today camera_name video_date_in
    (fdef.bind buildFilterExpression) num_results older0 newer0 fuel

/-- Items of an outcome (consolidated items for non-`ok` outcomes). -/
def itemsOf : Outcome → List VideoRec
  | .ok r _ => r.Items
  | .fuelOut s => s.consItems
  | .typeError s => s.consItems

/-- Count of an outcome. -/
def countOf : Outcome → Nat
  | .ok r _ => r.Count
  | .fuelOut s => s.consCount
  | .typeError s => s.consCount

/-- Returned continuation key of an outcome. -/
def lekOf : Outcome → Option Lek
  | .ok r _ => r.LastEvaluatedKey
  | .fuelOut _ => none
  | .typeError _ => none

/-- The partition of the returned continuation key, when any. -/
def lekDateOf (o : Outcome) : Option Nat := (lekOf o).bind (fun l => l.capture_date)

/-- Instrumentation log of an outcome. -/
def queriesOf : Outcome → List QueryLog
  | .ok _ qs => qs
  | .fuelOut s => s.queries
  | .typeError s => s.queries

/-- Number of store requests reported by an outcome. -/
def dynRequestsOf : Outcome → Nat
  | .ok r _ => r.DynDBRequests
  | .fuelOut s => s.request_num
  | .typeError s => s.request_num

/-- Whether the handler returned normally. -/
def isOk : Outcome → Bool
  | .ok _ _ => true
  | .fuelOut _ => false
  | .typeError _ => false

/-! ## Ingestion engine: labels_to_graph.py -/

/-- A record of the Rekognition label table, as projected for the graph
loader: global secondary index keys `capture_date` and `event_ts`. -/
structure LabelItem where
  capture_date : Nat
  event_ts : Nat
  object_key : String := ""
  label : String := ""
deriving DecidableEq, Repr

/-- Sort-key order on label items. -/
def tsRelL (a b : LabelItem) : Prop := a.event_ts ≤ b.event_ts

instance : DecidableRel tsRelL := fun a b => Nat.decLe a.event_ts b.event_ts

instance : IsTotal LabelItem tsRelL := ⟨fun a b => Nat.le_total a.event_ts b.event_ts⟩

instance : IsTrans LabelItem tsRelL := ⟨fun _ _ _ h₁ h₂ => Nat.le_trans h₁ h₂⟩

/-- The persisted checkpoint blob
`{max_capture_date, max_timestamp}`. -/
structure Ckpt where
  max_capture_date : Nat
  max_timestamp : Nat
deriving DecidableEq, Repr

/-- One item of the running-max fold of `process_response_items` (lines
179-188): a strictly larger `event_ts` replaces the running max and takes
its `capture_date` along. -/
def processStep (c : Ckpt) (it : LabelItem) : Ckpt :=
  if c.max_timestamp < it.event_ts then
    { max_capture_date := it.capture_date, max_timestamp := it.event_ts }
  else c

/-- Function `process_response_items` (lines 168-195): every item of the response is
fed to the graph sink in response order while the running maximum
(timestamp, capture date) pair is updated from the given base values. -/
def process_response_items (items : List LabelItem) (base : Ckpt) : Ckpt :=
  items.foldl processStep base

/-- The source expression `datetime.fromtimestamp(t).strftime(%Y-%m-%d)` in the epoch-day model. -/
def dateOfTs (t : Nat) : Nat := t / 86400

/-- The records the incremental key condition selects: partition
`capture_date = checkpoint.max_capture_date`, sort range
`event_ts > checkpoint.max_timestamp` (lines 116-117). -/
def sinceQualifying (cp : Ckpt) (table : List LabelItem) : List LabelItem :=
  table.filter (fun r =>
    (r.capture_date == cp.max_capture_date) && Nat.blt cp.max_timestamp r.event_ts)

/-- The stall check (lines 122-136): only when the first response holds zero
items, the calendar date of the running max timestamp is compared with the
current date and, when the two differ, `max_capture_date` is forced to the
current date. -/
def stallAdvance (firstItems : List LabelItem) (m : Ckpt) (now_date : Nat) : Ckpt :=
  if firstItems.length == 0 then
    if dateOfTs m.max_timestamp != now_date then { m with max_capture_date := now_date }
    else m
  else m

/-- The continuation loop of `get_query_items_since_checkpoint` (lines
138-151): while the store reports a continuation key — under the
PartitionedStore contract, while qualifying records remain — fetch the next
batch, fold it over the original checkpoint (line 149 passes `checkpoint`,
not the previous running max) and persist the result.  The chunk size is
`b + 1`; callers pass `items_per_batch - 1` so a positive `items_per_batch`
is reproduced exactly. -/
def loopBatchesAux (cp : Ckpt) (b : Nat) : Nat → List LabelItem → List Ckpt × List LabelItem
  | _, [] => ([], [])
  | 0, _ :: _ => ([], [])
  | fuel + 1, x :: xs =>
    let rem := x :: xs
    let c := rem.take (b + 1)
    let rest := loopBatchesAux cp b fuel (rem.drop (b + 1))
    (process_response_items c cp :: rest.1, c ++ rest.2)

/-- The continuation loop itself: each step consumes at least one record, so
`rem.length` is always enough fuel and `loopBatchesAux` never hits its
fuel-exhaustion case. -/
def loopBatches (cp : Ckpt) (b : Nat) (rem : List LabelItem) :
    List Ckpt × List LabelItem :=
  loopBatchesAux cp b rem.length rem

/-- Function `get_query_items_since_checkpoint` (lines 108-153): query the qualifying
records in ascending sort-key order in batches of `items_per_batch`; fold
the first batch over the checkpoint, apply the stall check, persist; then
run the continuation loop, persisting after every batch.  Returns the list
of persisted checkpoints in persist order and the list of processed items in
processing order. -/
def get_query_items_since_checkpoint (table : List LabelItem) (cp : Ckpt)
    (items_per_batch : Nat) (now_date : Nat) : List Ckpt × List LabelItem :=
  let q := List.insertionSort tsRelL (sinceQualifying cp table)
  let first := q.take items_per_batch
  let m1 := stallAdvance first (process_response_items first cp) now_date
  let rest := loopBatches cp (items_per_batch - 1) (q.drop items_per_batch)
  (m1 :: rest.1, first ++ rest.2)

/-- Result of the S3 `get` of the checkpoint blob.  `clientError` covers
every `botocore.exceptions.ClientError`, throttling and access failures
included, not only a missing key. -/
inductive S3GetResult where
  | blob (c : Ckpt)
  | noSuchKey
  | clientError
deriving DecidableEq, Repr

/-- Function `fetch_checkpoint` (lines 155-166): the `except ClientError` handler
logs and falls through, so the function returns `None` for a missing blob
and for any client error alike. -/
def fetch_checkpoint : S3GetResult → Option Ckpt
  | .blob c => some c
  | .noSuchKey => none
  | .clientError => none

/-- Function `main` (lines 23-45) runs the bootstrap full scan exactly when
`fetch_checkpoint` returned `None`. -/
def mainRunsBootstrap (r : S3GetResult) : Bool := (fetch_checkpoint r).isNone

/-- Running maximum of the sort keys of a list of items over a base value. -/
def maxTs (base : Nat) (l : List LabelItem) : Nat :=
  l.foldl (fun a x => max a x.event_ts) base

/-- The checkpoint invariant of the specification between two successively
persisted checkpoints: the partition value never moves backward, and at a
fixed partition value the sort value never decreases. -/
def ckptLe (a b : Ckpt) : Prop :=
  a.max_capture_date ≤ b.max_capture_date ∧
    (a.max_capture_date = b.max_capture_date → a.max_timestamp ≤ b.max_timestamp)

instance (a b : Ckpt) : Decidable (ckptLe a b) := by
  unfold ckptLe
  infer_instance

/-! ## Helper lemmas: ingestion -/

lemma getLast?_cons_of_ne_nil {α : Type} (a : α) {l : List α} (h : l ≠ []) :
    (a :: l).getLast? = l.getLast? := by
  cases l with
  | nil => exact absurd rfl h
  | cons b t => rfl

lemma processStep_t (c : Ckpt) (x : LabelItem) :
    (processStep c x).max_timestamp = max c.max_timestamp x.event_ts := by
  unfold processStep
  by_cases h : c.max_timestamp < x.event_ts <;> simp [h] <;> omega

lemma processStep_d (c : Ckpt) (x : LabelItem) :
    (processStep c x).max_capture_date = x.capture_date ∨
      (processStep c x).max_capture_date = c.max_capture_date := by
  unfold processStep
  by_cases h : c.max_timestamp < x.event_ts <;> simp [h]

lemma maxTs_nil (a : Nat) : maxTs a [] = a := rfl

lemma maxTs_cons (a : Nat) (x : LabelItem) (l : List LabelItem) :
    maxTs a (x :: l) = maxTs (max a x.event_ts) l := rfl

lemma process_t (l : List LabelItem) :
    ∀ c : Ckpt, (process_response_items l c).max_timestamp = maxTs c.max_timestamp l := by
  induction l with
  | nil => intro c; rfl
  | cons x xs ih =>
    intro c
    show (process_response_items xs (processStep c x)).max_timestamp = _
    rw [ih (processStep c x), processStep_t, maxTs_cons]

lemma process_d (l : List LabelItem) (D : Nat) :
    ∀ c : Ckpt, (∀ x ∈ l, x.capture_date = D) → c.max_capture_date = D →
      (process_response_items l c).max_capture_date = D := by
  induction l with
  | nil => intro c _ hc; exact hc
  | cons x xs ih =>
    intro c hl hc
    show (process_response_items xs (processStep c x)).max_capture_date = D
    refine ih (processStep c x) (fun y hy => hl y (List.mem_cons_of_mem x hy)) ?_
    rcases processStep_d c x with h | h
    · rw [h]; exact hl x (List.mem_cons_self x xs)
    · rw [h]; exact hc

lemma maxTs_base_max (l : List LabelItem) : ∀ a : Nat, maxTs a l = max a (maxTs 0 l) := by
  induction l with
  | nil => intro a; simp [maxTs_nil]
  | cons x xs ih =>
    intro a
    rw [maxTs_cons, maxTs_cons, ih (max a x.event_ts), ih (max 0 x.event_ts)]
    omega

lemma le_maxTs (a : Nat) (l : List LabelItem) : a ≤ maxTs a l := by
  rw [maxTs_base_max]; omega

lemma maxTs_le (l : List LabelItem) : ∀ a B : Nat, a ≤ B → (∀ x ∈ l, x.event_ts ≤ B) →
    maxTs a l ≤ B := by
  induction l with
  | nil => intro a B ha _; exact ha
  | cons x xs ih =>
    intro a B ha hl
    rw [maxTs_cons]
    refine ih (max a x.event_ts) B ?_ (fun y hy => hl y (List.mem_cons_of_mem x hy))
    have := hl x (List.mem_cons_self x xs)
    omega

lemma mem_le_maxTs {x : LabelItem} {l : List LabelItem} (h : x ∈ l) (a : Nat) :
    x.event_ts ≤ maxTs a l := by
  induction l generalizing a with
  | nil => cases h
  | cons y ys ih =>
    rw [maxTs_cons]
    rcases List.mem_cons.mp h with rfl | h2
    · have := le_maxTs (max a x.event_ts) ys; omega
    · exact ih h2 (max a y.event_ts)

lemma maxTs_append (a : Nat) (l1 l2 : List LabelItem) :
    maxTs a (l1 ++ l2) = maxTs (maxTs a l1) l2 := by
  simp [maxTs, List.foldl_append]

lemma loopBatchesAux_nil (cp : Ckpt) (b f : Nat) : loopBatchesAux cp b f [] = ([], []) := by
  cases f <;> rfl

lemma loopBatchesAux_irrel (cp : Ckpt) (b : Nat) : ∀ f g (rem : List LabelItem),
    rem.length ≤ f → rem.length ≤ g → loopBatchesAux cp b f rem = loopBatchesAux cp b g rem := by
  intro f
  induction f with
  | zero =>
    intro g rem hf _
    have : rem = [] := List.length_eq_zero.mp (Nat.le_zero.mp hf)
    rw [this, loopBatchesAux_nil, loopBatchesAux_nil]
  | succ m ih =>
    intro g rem hf hg
    match rem with
    | [] => rw [loopBatchesAux_nil, loopBatchesAux_nil]
    | x :: xs =>
      match g with
      | 0 => exact absurd hg (by simp)
      | g1 + 1 =>
        show (process_response_items ((x :: xs).take (b + 1)) cp ::
                (loopBatchesAux cp b m ((x :: xs).drop (b + 1))).1,
              (x :: xs).take (b + 1) ++ (loopBatchesAux cp b m ((x :: xs).drop (b + 1))).2) =
          (process_response_items ((x :: xs).take (b + 1)) cp ::
                (loopBatchesAux cp b g1 ((x :: xs).drop (b + 1))).1,
              (x :: xs).take (b + 1) ++ (loopBatchesAux cp b g1 ((x :: xs).drop (b + 1))).2)
        have hm : ((x :: xs).drop (b + 1)).length ≤ m := by
          have h1 : (x :: xs).length ≤ m + 1 := hf
          rw [List.length_drop]
          simp at h1 ⊢
          omega
        have hg1 : ((x :: xs).drop (b + 1)).length ≤ g1 := by
          have h1 : (x :: xs).length ≤ g1 + 1 := hg
          rw [List.length_drop]
          simp at h1 ⊢
          omega
        rw [ih g1 _ hm hg1]

lemma loopBatchesAux_eq (cp : Ckpt) (b : Nat) (f : Nat) (rem : List LabelItem)
    (h : rem.length ≤ f) : loopBatchesAux cp b f rem = loopBatches cp b rem :=
  loopBatchesAux_irrel cp b f rem.length rem h (Nat.le_refl _)

lemma loopBatches_nil (cp : Ckpt) (b : Nat) : loopBatches cp b [] = ([], []) := rfl

lemma loopBatches_ne_nil (cp : Ckpt) (b : Nat) {rem : List LabelItem} (h : rem ≠ []) :
    loopBatches cp b rem =
      (process_response_items (rem.take (b + 1)) cp :: (loopBatches cp b (rem.drop (b + 1))).1,
       rem.take (b + 1) ++ (loopBatches cp b (rem.drop (b + 1))).2) := by
  match rem with
  | [] => exact absurd rfl h
  | x :: xs =>
    show loopBatchesAux cp b (xs.length + 1) (x :: xs) = _
    have hd : ((x :: xs).drop (b + 1)).length ≤ xs.length := by
      rw [List.length_drop]
      simp only [List.length_cons]
      omega
    show (process_response_items ((x :: xs).take (b + 1)) cp ::
            (loopBatchesAux cp b xs.length ((x :: xs).drop (b + 1))).1,
          (x :: xs).take (b + 1) ++ (loopBatchesAux cp b xs.length ((x :: xs).drop (b + 1))).2) = _
    rw [loopBatchesAux_eq cp b xs.length _ hd]

lemma loopBatches_snd (cp : Ckpt) (b : Nat) : ∀ n (rem : List LabelItem), rem.length ≤ n →
    (loopBatches cp b rem).2 = rem := by
  intro n
  induction n with
  | zero =>
    intro rem h
    have : rem = [] := List.length_eq_zero.mp (Nat.le_zero.mp h)
    rw [this, loopBatches_nil]
  | succ m ih =>
    intro rem h
    by_cases hrem : rem = []
    · rw [hrem, loopBatches_nil]
    · rw [loopBatches_ne_nil cp b hrem]
      have hlen : (rem.drop (b + 1)).length ≤ m := by
        rw [List.length_drop]
        have : 0 < rem.length := List.length_pos.mpr hrem
        omega
      simp only
      rw [ih (rem.drop (b + 1)) hlen, List.take_append_drop]

lemma loopBatches_fst_ne_nil (cp : Ckpt) (b : Nat) {rem : List LabelItem} (h : rem ≠ []) :
    (loopBatches cp b rem).1 ≠ [] := by
  rw [loopBatches_ne_nil cp b h]
  simp

lemma sorted_split {rem : List LabelItem} (hs : List.Sorted tsRelL rem) (n : Nat) :
    (∀ x ∈ rem.take n, ∀ y ∈ rem.drop n, x.event_ts ≤ y.event_ts) ∧
      List.Sorted tsRelL (rem.take n) ∧ List.Sorted tsRelL (rem.drop n) := by
  have h := hs
  rw [← List.take_append_drop n rem] at h
  have h2 := List.pairwise_append.mp h
  exact ⟨fun x hx y hy => h2.2.2 x hx y hy, h2.1, h2.2.1⟩

lemma maxTs_take_le_drop {rem : List LabelItem} (hs : List.Sorted tsRelL rem) (n : Nat)
    (hd : rem.drop n ≠ []) : maxTs 0 (rem.take n) ≤ maxTs 0 (rem.drop n) := by
  obtain ⟨y, hy⟩ := List.exists_mem_of_ne_nil _ hd
  refine maxTs_le _ 0 _ (Nat.zero_le _) (fun x hx => ?_)
  have h1 : x.event_ts ≤ y.event_ts := (sorted_split hs n).1 x hx y hy
  have h2 : y.event_ts ≤ maxTs 0 (rem.drop n) := mem_le_maxTs hy 0
  omega

lemma maxTs_drop_absorb {rem : List LabelItem} (hs : List.Sorted tsRelL rem) (a n : Nat)
    (hd : rem.drop n ≠ []) : maxTs (maxTs a (rem.take n)) (rem.drop n) = maxTs a (rem.drop n) := by
  rw [maxTs_base_max (rem.drop n), maxTs_base_max (rem.drop n) a, maxTs_base_max (rem.take n)]
  have := maxTs_take_le_drop hs n hd
  omega

lemma loopBatches_last_t (cp : Ckpt) (b : Nat) : ∀ n (rem : List LabelItem), rem.length ≤ n →
    rem ≠ [] → List.Sorted tsRelL rem →
    ((loopBatches cp b rem).1.getLast?).map (fun c => c.max_timestamp) =
      some (maxTs cp.max_timestamp rem) := by
  intro n
  induction n with
  | zero =>
    intro rem h hne _
    exact absurd (List.length_eq_zero.mp (Nat.le_zero.mp h)) hne
  | succ m ih =>
    intro rem h hne hs
    rw [loopBatches_ne_nil cp b hne]
    by_cases hd : rem.drop (b + 1) = []
    · have htake : rem.take (b + 1) = rem := by
        have : rem.length ≤ b + 1 := by
          have := List.length_drop (b + 1) rem
          rw [hd] at this
          simp at this
          omega
        exact List.take_of_length_le this
      rw [hd, loopBatches_nil]
      simp [htake, process_t]
    · have hlen : (rem.drop (b + 1)).length ≤ m := by
        rw [List.length_drop]
        have : 0 < rem.length := List.length_pos.mpr hne
        omega
      have hsd : List.Sorted tsRelL (rem.drop (b + 1)) := (sorted_split hs (b + 1)).2.2
      have hrec := ih (rem.drop (b + 1)) hlen hd hsd
      simp only
      rw [getLast?_cons_of_ne_nil _ (loopBatches_fst_ne_nil cp b hd), hrec]
      congr 1
      calc maxTs cp.max_timestamp (rem.drop (b + 1))
          = maxTs (maxTs cp.max_timestamp (rem.take (b + 1))) (rem.drop (b + 1)) :=
            (maxTs_drop_absorb hs cp.max_timestamp (b + 1) hd).symm
        _ = maxTs cp.max_timestamp rem := by
            rw [← maxTs_append, List.take_append_drop]

lemma ckptLe_refl (a : Ckpt) : ckptLe a a := ⟨Nat.le_refl _, fun _ => Nat.le_refl _⟩

lemma loopBatches_chain (cp : Ckpt) (b : Nat) : ∀ n (rem : List LabelItem), rem.length ≤ n →
    ∀ prev : Ckpt, List.Sorted tsRelL rem →
    (∀ x ∈ rem, x.capture_date = cp.max_capture_date) →
    prev.max_capture_date = cp.max_capture_date →
    (rem ≠ [] → prev.max_timestamp ≤ maxTs cp.max_timestamp (rem.take (b + 1))) →
    List.Chain' ckptLe (prev :: (loopBatches cp b rem).1) := by
  intro n
  induction n with
  | zero =>
    intro rem h prev _ _ _ _
    have : rem = [] := List.length_eq_zero.mp (Nat.le_zero.mp h)
    rw [this, loopBatches_nil]
    exact List.chain'_singleton prev
  | succ m ih =>
    intro rem h prev hs hall hprevd hprevt
    by_cases hne : rem = []
    · rw [hne, loopBatches_nil]
      exact List.chain'_singleton prev
    · rw [loopBatches_ne_nil cp b hne]
      simp only
      set p1 := process_response_items (rem.take (b + 1)) cp with hp1
      have hp1d : p1.max_capture_date = cp.max_capture_date := by
        refine process_d _ _ _ (fun x hx => hall x (List.mem_of_mem_take hx)) rfl
      have hp1t : p1.max_timestamp = maxTs cp.max_timestamp (rem.take (b + 1)) := by
        rw [hp1, process_t]
      have hlink : ckptLe prev p1 := by
        refine ⟨by rw [hp1d, hprevd], fun _ => ?_⟩
        rw [hp1t]
        exact hprevt hne
      have hlen : (rem.drop (b + 1)).length ≤ m := by
        rw [List.length_drop]
        have : 0 < rem.length := List.length_pos.mpr hne
        omega
      have hsd : List.Sorted tsRelL (rem.drop (b + 1)) := (sorted_split hs (b + 1)).2.2
      have halld : ∀ x ∈ rem.drop (b + 1), x.capture_date = cp.max_capture_date :=
        fun x hx => hall x (List.mem_of_mem_drop hx)
      have hnext : rem.drop (b + 1) ≠ [] →
          p1.max_timestamp ≤ maxTs cp.max_timestamp ((rem.drop (b + 1)).take (b + 1)) := by
        intro hd
        rw [hp1t]
        have htk : (rem.drop (b + 1)).take (b + 1) ≠ [] := by
          intro hcon
          have := List.length_eq_zero.mpr hcon
          rw [List.length_take] at this
          have := List.length_pos.mpr hd
          omega
        obtain ⟨y, hy⟩ := List.exists_mem_of_ne_nil _ htk
        have hyd : y ∈ rem.drop (b + 1) := List.mem_of_mem_take hy
        have hxy : ∀ x ∈ rem.take (b + 1), x.event_ts ≤ y.event_ts :=
          fun x hx => (sorted_split hs (b + 1)).1 x hx y hyd
        have hymax : y.event_ts ≤ maxTs cp.max_timestamp ((rem.drop (b + 1)).take (b + 1)) :=
          mem_le_maxTs hy _
        have hbase : cp.max_timestamp ≤ maxTs cp.max_timestamp ((rem.drop (b + 1)).take (b + 1)) :=
          le_maxTs _ _
        refine maxTs_le _ _ _ hbase (fun x hx => ?_)
        have := hxy x hx
        omega
      exact List.Chain'.cons hlink (ih (rem.drop (b + 1)) hlen p1 hsd halld hp1d hnext)

lemma mem_sinceQualifying {cp : Ckpt} {table : List LabelItem} {x : LabelItem}
    (h : x ∈ sinceQualifying cp table) :
    x.capture_date = cp.max_capture_date ∧ cp.max_timestamp < x.event_ts := by
  unfold sinceQualifying at h
  have h2 := List.of_mem_filter h
  simp only [Bool.and_eq_true, beq_iff_eq] at h2
  exact ⟨h2.1, by have := h2.2; simpa [Nat.blt_eq] using this⟩

lemma maxTs_zero_base {l : List LabelItem} (hne : l ≠ []) (a : Nat)
    (h : ∀ x ∈ l, a ≤ x.event_ts) : maxTs a l = maxTs 0 l := by
  obtain ⟨y, hy⟩ := List.exists_mem_of_ne_nil _ hne
  have h1 : a ≤ maxTs 0 l := Nat.le_trans (h y hy) (mem_le_maxTs hy 0)
  rw [maxTs_base_max]
  omega

lemma stallAdvance_of_ne_nil {first : List LabelItem} (h : first ≠ []) (m : Ckpt)
    (now : Nat) : stallAdvance first m now = m := by
  unfold stallAdvance
  have : first.length ≠ 0 := fun hc => h (List.length_eq_zero.mp hc)
  simp [this]

lemma take_ne_nil_of_pos {l : List LabelItem} (hl : l ≠ []) {n : Nat} (hn : 0 < n) :
    l.take n ≠ [] := by
  intro hc
  have := List.length_eq_zero.mpr hc
  rw [List.length_take] at this
  have := List.length_pos.mpr hl
  omega

/-- C5: for every checkpoint and table, incremental catch-up processes
exactly the qualifying records of the checkpoint partition with sort key
strictly above the checkpoint timestamp, in ascending sort-key order, and
when anything was processed the last persisted checkpoint carries the
greatest processed sort key as its `max_timestamp`. -/
theorem c5_incremental_catchup (table : List LabelItem) (cp : Ckpt) (batch now : Nat)
    (hb : 0 < batch) :
    (get_query_items_since_checkpoint table cp batch now).2 =
        List.insertionSort tsRelL (sinceQualifying cp table) ∧
    List.Sorted tsRelL (get_query_items_since_checkpoint table cp batch now).2 ∧
    List.Perm (get_query_items_since_checkpoint table cp batch now).2
      (sinceQualifying cp table) ∧
    (∀ x ∈ (get_query_items_since_checkpoint table cp batch now).2,
        x.capture_date = cp.max_capture_date ∧ cp.max_timestamp < x.event_ts) ∧
    ((get_query_items_since_checkpoint table cp batch now).2 ≠ [] →
      (((get_query_items_since_checkpoint table cp batch now).1.getLast?).map
          (fun c => c.max_timestamp)) =
        some (maxTs 0 (get_query_items_since_checkpoint table cp batch now).2)) := by
  have hb1 : batch - 1 + 1 = batch := by omega
  set q := List.insertionSort tsRelL (sinceQualifying cp table) with hq
  have hsnd : (get_query_items_since_checkpoint table cp batch now).2 = q := by
    show q.take batch ++ (loopBatches cp (batch - 1) (q.drop batch)).2 = q
    rw [hb1] at *
    rw [loopBatches_snd cp (batch - 1) (q.drop batch).length (q.drop batch) (Nat.le_refl _)]
    exact List.take_append_drop batch q
  have hqmem : ∀ x ∈ q, x.capture_date = cp.max_capture_date ∧
      cp.max_timestamp < x.event_ts := by
    intro x hx
    exact mem_sinceQualifying ((List.mem_insertionSort tsRelL).mp hx)
  have hsorted : List.Sorted tsRelL q := List.sorted_insertionSort tsRelL _
  refine ⟨hsnd, by rw [hsnd]; exact hsorted,
    by rw [hsnd]; exact List.perm_insertionSort tsRelL _,
    by rw [hsnd]; exact hqmem, ?_⟩
  rw [hsnd]
  intro hne
  have hfirst_ne : q.take batch ≠ [] := take_ne_nil_of_pos hne hb
  have hfst : (get_query_items_since_checkpoint table cp batch now).1 =
      process_response_items (q.take batch) cp ::
        (loopBatches cp (batch - 1) (q.drop batch)).1 := by
    show stallAdvance (q.take batch) (process_response_items (q.take batch) cp) now ::
        (loopBatches cp (batch - 1) (q.drop batch)).1 = _
    rw [stallAdvance_of_ne_nil hfirst_ne]
  rw [hfst]
  have hq_strict : ∀ x ∈ q, cp.max_timestamp ≤ x.event_ts :=
    fun x hx => Nat.le_of_lt (hqmem x hx).2
  have habsorb : maxTs cp.max_timestamp q = maxTs 0 q := maxTs_zero_base hne _ hq_strict
  by_cases hd : q.drop batch = []
  · have htake : q.take batch = q := by
      refine List.take_of_length_le ?_
      have h1 := List.length_drop batch q
      rw [hd] at h1
      simp at h1
      omega
    rw [hd, loopBatches_nil]
    simp only [List.getLast?_singleton, Option.map_some']
    rw [process_t, htake, habsorb]
  · rw [getLast?_cons_of_ne_nil _ (loopBatches_fst_ne_nil cp (batch - 1) hd)]
    have hsd : List.Sorted tsRelL (q.drop batch) := (sorted_split hsorted batch).2.2
    have hlast := loopBatches_last_t cp (batch - 1) (q.drop batch).length (q.drop batch)
      (Nat.le_refl _) hd hsd
    rw [hlast]
    congr 1
    calc maxTs cp.max_timestamp (q.drop batch)
        = maxTs (maxTs cp.max_timestamp (q.take batch)) (q.drop batch) :=
          (maxTs_drop_absorb hsorted cp.max_timestamp batch hd).symm
      _ = maxTs cp.max_timestamp q := by rw [← maxTs_append, List.take_append_drop]
      _ = maxTs 0 q := habsorb

/-- Scenario of testable property 1 (resume bound): partition 2024-05-01
(day 19844) with records at sort keys 900, 1000, 1100, 1200. -/
def c5_table : List LabelItem :=
  [{ capture_date := 19844, event_ts := 900 }, { capture_date := 19844, event_ts := 1000 },
   { capture_date := 19844, event_ts := 1100 }, { capture_date := 19844, event_ts := 1200 }]

/-- Witness for C5 at the concrete resume-bound scenario: exactly the
records at 1100 and 1200 are processed and the final persisted
`max_timestamp` is 1200. -/
theorem c5_incremental_catchup_witness :
    (0 < 10 ∧
      ((get_query_items_since_checkpoint c5_table ⟨19844, 1000⟩ 10 19844).2 =
          List.insertionSort tsRelL (sinceQualifying ⟨19844, 1000⟩ c5_table) ∧
        List.Sorted tsRelL (get_query_items_since_checkpoint c5_table ⟨19844, 1000⟩ 10 19844).2 ∧
        List.Perm (get_query_items_since_checkpoint c5_table ⟨19844, 1000⟩ 10 19844).2
          (sinceQualifying ⟨19844, 1000⟩ c5_table) ∧
        (∀ x ∈ (get_query_items_since_checkpoint c5_table ⟨19844, 1000⟩ 10 19844).2,
            x.capture_date = (⟨19844, 1000⟩ : Ckpt).max_capture_date ∧
              (⟨19844, 1000⟩ : Ckpt).max_timestamp < x.event_ts) ∧
        ((get_query_items_since_checkpoint c5_table ⟨19844, 1000⟩ 10 19844).2 ≠ [] →
          (((get_query_items_since_checkpoint c5_table ⟨19844, 1000⟩ 10 19844).1.getLast?).map
              (fun c => c.max_timestamp)) =
            some (maxTs 0 (get_query_items_since_checkpoint c5_table ⟨19844, 1000⟩ 10 19844).2)))) ∧
    (get_query_items_since_checkpoint c5_table ⟨19844, 1000⟩ 10 19844).2.map
        (fun x => x.event_ts) = [1100, 1200] ∧
    ((get_query_items_since_checkpoint c5_table ⟨19844, 1000⟩ 10 19844).1.getLast?).map
        (fun c => c.max_timestamp) = some 1200 :=
  ⟨⟨by decide, c5_incremental_catchup c5_table ⟨19844, 1000⟩ 10 19844 (by decide)⟩,
   by decide, by decide⟩

lemma stallAdvance_nil (m : Ckpt) (now : Nat) :
    stallAdvance [] m now =
      if dateOfTs m.max_timestamp = now then m else { m with max_capture_date := now } := by
  unfold stallAdvance
  by_cases h : dateOfTs m.max_timestamp = now
  · simp [h]
  · simp [h]

lemma maxTs_take_le_take_drop {q : List LabelItem} (hs : List.Sorted tsRelL q) (a n k : Nat)
    (hd : q.drop n ≠ []) (hk : 0 < k) :
    maxTs a (q.take n) ≤ maxTs a ((q.drop n).take k) := by
  have htk : (q.drop n).take k ≠ [] := take_ne_nil_of_pos hd hk
  obtain ⟨y, hy⟩ := List.exists_mem_of_ne_nil _ htk
  have hyd : y ∈ q.drop n := List.mem_of_mem_take hy
  refine maxTs_le _ _ _ (le_maxTs _ _) (fun x hx => ?_)
  have h1 : x.event_ts ≤ y.event_ts := (sorted_split hs n).1 x hx y hyd
  have h2 : y.event_ts ≤ maxTs a ((q.drop n).take k) := mem_le_maxTs hy _
  omega

/-- C8: every pair of successively persisted checkpoints of an incremental
cycle (starting from the checkpoint the cycle read) satisfies the
monotonicity invariant: the partition value never moves backward, and at a
fixed partition value the sort value never decreases.  The current date is
assumed not to lie before the checkpoint partition date (the wall clock
that wrote the checkpoint also produces `now_date`). -/
theorem c8_checkpoint_monotonicity (table : List LabelItem) (cp : Ckpt) (batch now : Nat)
    (hb : 0 < batch) (hnow : cp.max_capture_date ≤ now) :
    List.Chain' ckptLe (cp :: (get_query_items_since_checkpoint table cp batch now).1) := by
  have hb1 : batch - 1 + 1 = batch := by omega
  set q := List.insertionSort tsRelL (sinceQualifying cp table) with hqdef
  have hqmem : ∀ x ∈ q, x.capture_date = cp.max_capture_date ∧
      cp.max_timestamp < x.event_ts :=
    fun x hx => mem_sinceQualifying ((List.mem_insertionSort tsRelL).mp hx)
  have hsorted : List.Sorted tsRelL q := List.sorted_insertionSort tsRelL _
  show List.Chain' ckptLe
    (cp :: stallAdvance (q.take batch) (process_response_items (q.take batch) cp) now ::
      (loopBatches cp (batch - 1) (q.drop batch)).1)
  by_cases hq : q = []
  · rw [hq]
    simp only [List.take_nil, List.drop_nil, loopBatches_nil]
    show List.Chain' ckptLe (cp :: stallAdvance [] (process_response_items [] cp) now :: [])
    refine List.chain'_pair.mpr ?_
    show ckptLe cp (stallAdvance [] cp now)
    rw [stallAdvance_nil]
    by_cases hdt : dateOfTs cp.max_timestamp = now
    · rw [if_pos hdt]
      exact ckptLe_refl cp
    · rw [if_neg hdt]
      exact ⟨hnow, fun _ => Nat.le_refl _⟩
  · have hfirst_ne : q.take batch ≠ [] := take_ne_nil_of_pos hq hb
    rw [stallAdvance_of_ne_nil hfirst_ne]
    set m1 := process_response_items (q.take batch) cp with hm1
    have hm1d : m1.max_capture_date = cp.max_capture_date :=
      process_d _ _ _ (fun x hx => (hqmem x (List.mem_of_mem_take hx)).1) rfl
    have hm1t : m1.max_timestamp = maxTs cp.max_timestamp (q.take batch) := process_t _ _
    refine List.Chain'.cons ⟨Nat.le_of_eq hm1d.symm, fun _ => ?_⟩ ?_
    · rw [hm1t]; exact le_maxTs _ _
    · refine loopBatches_chain cp (batch - 1) (q.drop batch).length (q.drop batch)
        (Nat.le_refl _) m1 (sorted_split hsorted batch).2.2
        (fun x hx => (hqmem x (List.mem_of_mem_drop hx)).1) hm1d ?_
      intro hd
      rw [hm1t, hb1]
      exact maxTs_take_le_take_drop hsorted cp.max_timestamp batch batch hd hb

/-- Witness for C8: a concrete two-batch incremental run whose persisted
checkpoints are chained by the invariant. -/
theorem c8_checkpoint_monotonicity_witness :
    (0 < 1 ∧ (⟨19844, 1000⟩ : Ckpt).max_capture_date ≤ 19845) ∧
    List.Chain' ckptLe
      ((⟨19844, 1000⟩ : Ckpt) ::
        (get_query_items_since_checkpoint c5_table ⟨19844, 1000⟩ 1 19845).1) :=
  ⟨⟨by decide, by decide⟩,
   c8_checkpoint_monotonicity c5_table ⟨19844, 1000⟩ 1 19845 (by decide) (by decide)⟩

/-- C7 counterexample: checkpoint `{max_capture_date = 19844 (2024-05-01),
max_timestamp = 1714694460 (a second of day 19846, 2024-05-03)}`, current
date 19846, zero new records.  The current date is strictly later than the
checkpoint partition date, yet the engine does not force-advance: the
persisted checkpoint keeps partition 19844, because the code compares the
calendar date of `max_timestamp`, not `max_capture_date`, with the current
date. -/
theorem c7_stall_advance_counterexample :
    (get_query_items_since_checkpoint [] ⟨19844, 1714694460⟩ 10 19846).1 =
      [⟨19844, 1714694460⟩] ∧
    (19844 : Nat) < 19846 := by
  constructor
  · decide
  · decide

/-- C7 amended: with zero new records the engine compares the calendar date
of the checkpoint `max_timestamp` (not of `max_partition_value`) with the
current date and force-advances `max_capture_date` to the current date,
`max_timestamp` unchanged, exactly when the two dates differ; in the §8.2
scenario, where `max_timestamp` lies on 2024-05-01 (day 19844) and the
current date is 2024-05-03 (day 19846), the first persisted checkpoint is
`{max_capture_date = 19846, max_timestamp unchanged}`. -/
theorem c7_stall_advance_amended :
    (∀ (table : List LabelItem) (cp : Ckpt) (batch now : Nat),
      sinceQualifying cp table = [] →
        (get_query_items_since_checkpoint table cp batch now).1 =
          [if dateOfTs cp.max_timestamp = now then cp
           else { cp with max_capture_date := now }]) ∧
    (get_query_items_since_checkpoint [] ⟨19844, 1714528800⟩ 10 19846).1 =
      [⟨19846, 1714528800⟩] := by
  constructor
  · intro table cp batch now hq
    show stallAdvance ((List.insertionSort tsRelL (sinceQualifying cp table)).take batch)
        (process_response_items
          ((List.insertionSort tsRelL (sinceQualifying cp table)).take batch) cp) now ::
      (loopBatches cp (batch - 1)
        ((List.insertionSort tsRelL (sinceQualifying cp table)).drop batch)).1 = _
    rw [hq]
    show stallAdvance (List.take batch []) (process_response_items (List.take batch []) cp)
        now :: (loopBatches cp (batch - 1) (List.drop batch [])).1 = _
    simp only [List.take_nil, List.drop_nil, loopBatches_nil]
    show stallAdvance [] (process_response_items [] cp) now :: [] = _
    show stallAdvance [] cp now :: [] = _
    rw [stallAdvance_nil]
  · decide

/-- Witness for C7 amended, applying it at a concrete table with no
qualifying records. -/
theorem c7_stall_advance_amended_witness :
    (sinceQualifying ⟨19845, 500⟩ c5_table = [] ∧
      (get_query_items_since_checkpoint c5_table ⟨19845, 500⟩ 10 19846).1 =
        [if dateOfTs (⟨19845, 500⟩ : Ckpt).max_timestamp = 19846 then (⟨19845, 500⟩ : Ckpt)
         else { (⟨19845, 500⟩ : Ckpt) with max_capture_date := 19846 }]) :=
  ⟨by decide, c7_stall_advance_amended.1 c5_table ⟨19845, 500⟩ 10 19846 (by decide)⟩

/-- C6 counterexample: an S3 client error while reading the checkpoint makes
`fetch_checkpoint` return `none`, exactly like a missing blob, and `main`
then takes the bootstrap full-scan path — the failure is not confined to the
cycle. -/
theorem c6_fetch_error_counterexample :
    fetch_checkpoint S3GetResult.clientError = none ∧
      mainRunsBootstrap S3GetResult.clientError = true := by
  constructor
  · rfl
  · rfl

/-- C6 amended: a checkpoint-read client error is treated identically to an
absent checkpoint blob — `fetch_checkpoint` swallows the error and returns
`none`, and the cycle proceeds with the bootstrap full scan (as §6 of the
specification states), rather than skipping the cycle. -/
theorem c6_fetch_error_amended :
    fetch_checkpoint S3GetResult.clientError = fetch_checkpoint S3GetResult.noSuchKey ∧
      mainRunsBootstrap S3GetResult.clientError = mainRunsBootstrap S3GetResult.noSuchKey ∧
      mainRunsBootstrap S3GetResult.clientError = true := by
  exact ⟨rfl, rfl, rfl⟩

/-! ## Claim theorems: pagination -/

/-- Scenario of testable property 4 (no forward rollover): partition
2024-05-03 (day 19846) with two qualifying records beyond the `newer_than`
bound 50, and a populated partition 2024-05-04 (day 19847). -/
def c3_store : Store :=
  { timeline := [⟨19846, 10, "cam"⟩, ⟨19846, 20, "cam"⟩, ⟨19846, 100, "cam"⟩,
                 ⟨19846, 200, "cam"⟩, ⟨19847, 500, "cam"⟩],
    byCamera := [] }

/-- C3 at the §8.4 scenario: the handler issues exactly one store query,
against the cursor partition 2024-05-03 only (2024-05-04 is never queried),
and the response carries no `LastEvaluatedKey`; but instead of exactly the 2
qualifying records the code returns each of them twice (`Count = 4`),
because `consolidated_response` aliases `ddb_response` and is then extended
with its own item list (lines 140 and 144). -/
theorem c3_no_forward_rollover_at_failing_input :
    (queriesOf (lambda_handler_core c3_store 19846 none (some 19846) none 5 none (some 50) 10)).map
        (fun q => q.date) = [some 19846] ∧
    lekOf (lambda_handler_core c3_store 19846 none (some 19846) none 5 none (some 50) 10) =
      none ∧
    (itemsOf (lambda_handler_core c3_store 19846 none (some 19846) none 5 none (some 50) 10)).map
        (fun r => r.event_ts) = [100, 200, 100, 200] ∧
    countOf (lambda_handler_core c3_store 19846 none (some 19846) none 5 none (some 50) 10) =
      4 ∧
    dynRequestsOf (lambda_handler_core c3_store 19846 none (some 19846) none 5 none (some 50) 10) =
      1 := by
  refine ⟨?_, ?_, ?_, ?_, ?_⟩ <;> decide

/-- Scenario of testable property 3 (rollover pagination): partition
2024-05-03 (day 19846) with 3 records below the cursor bound, partition
2024-05-02 (day 19845) with 10 records. -/
def c1_store : Store :=
  { timeline :=
      [⟨19846, 3100, "cam"⟩, ⟨19846, 3200, "cam"⟩, ⟨19846, 3300, "cam"⟩] ++
        (List.range 10).map (fun i => ⟨19845, 2010 + 10 * i, "cam"⟩),
    byCamera := [] }

/-- C1: in a date-based older-direction fetch, whenever the last store
response carries no continuation key, the loop body rolls over to the
previous calendar day, resets the within-partition position (the
`older_than_ts` bound becomes absent, the start of that day), and issues a
further query against that day; and in the §8.3 scenario the call returns
exactly 5 items — 3 of 2024-05-03, then 2 of 2024-05-02 — with the returned
cursor pointing into 2024-05-02. -/
theorem c1_rollover_pagination :
    (∀ (store : Store) (today : Nat) (fe : Option (VideoRec → Bool))
        (newer : Option Nat) (requested : Nat) (s : LoopState) (d : Nat),
      s.video_date = some d → s.ddb.LastEvaluatedKey = none →
        (loopStep store none today fe newer requested s).video_date = some (d - 1) ∧
        (loopStep store none today fe newer requested s).older_than_ts = none ∧
        (loopStep store none today fe newer requested s).queries =
          s.queries ++ [(query_videos store none (some (d - 1)) today fe
            (requested - s.consCount) none newer).2]) ∧
    (itemsOf (lambda_handler_core c1_store 19846 none (some 19846) none 5 (some 3400) none 10)).map
        (fun r => (r.capture_date, r.event_ts)) =
      [(19846, 3300), (19846, 3200), (19846, 3100), (19845, 2100), (19845, 2090)] ∧
    countOf (lambda_handler_core c1_store 19846 none (some 19846) none 5 (some 3400) none 10) =
      5 ∧
    lekDateOf (lambda_handler_core c1_store 19846 none (some 19846) none 5 (some 3400) none 10) =
      some 19845 := by
  refine ⟨?_, by decide, by decide, by decide⟩
  intro store today fe newer requested s d hvd hlek
  unfold loopStep
  rw [hlek, hvd]
  simp

/-- A concrete loop state for the C1 witness: date partition 2024-05-03
exhausted (no continuation key), nothing accumulated yet. -/
def c1_state : LoopState :=
  { video_date := some 19846, older_than_ts := some 3400,
    ddb := { Items := [], Count := 0, ScannedCount := 0, LastEvaluatedKey := none },
    consItems := [], consCount := 0, request_num := 1, queries := [] }

/-- Witness for C1, applying the rollover-step part at a concrete state. -/
theorem c1_rollover_pagination_witness :
    (c1_state.video_date = some 19846 ∧ c1_state.ddb.LastEvaluatedKey = none) ∧
    ((loopStep c1_store none 19846 none none 5 c1_state).video_date = some (19846 - 1) ∧
      (loopStep c1_store none 19846 none none 5 c1_state).older_than_ts = none ∧
      (loopStep c1_store none 19846 none none 5 c1_state).queries =
        c1_state.queries ++ [(query_videos c1_store none (some (19846 - 1)) 19846 none
          (5 - c1_state.consCount) none none).2]) :=
  ⟨⟨by decide, by decide⟩,
   c1_rollover_pagination.1 c1_store 19846 none none 5 c1_state 19846 (by decide) (by decide)⟩

lemma query_log_limit_filtered (store : Store) (vd : Option Nat) (today : Nat)
    (f : VideoRec → Bool) (nr : Nat) (o n : Option Nat) :
    ((query_videos store none vd today (some f) nr o n).2).limit = 100 := by
  unfold query_videos
  simp

lemma loopStep_queries_limit (store : Store) (today : Nat) (f : VideoRec → Bool)
    (newer : Option Nat) (requested : Nat) (s : LoopState) :
    ∀ q ∈ (loopStep store none today (some f) newer requested s).queries,
      q ∈ s.queries ∨ q.limit = 100 := by
  intro q hq
  unfold loopStep at hq
  rcases hlek : s.ddb.LastEvaluatedKey with _ | lek
  · rw [hlek] at hq
    rcases hvd : s.video_date with _ | d
    · rw [hvd] at hq
      simp at hq
      exact Or.inl hq
    · rw [hvd] at hq
      simp at hq
      rcases hq with hq | hq
      · exact Or.inl hq
      · right
        rw [hq]
        exact query_log_limit_filtered store (some (d - 1)) today f
          (requested - s.consCount) none newer
  · rw [hlek] at hq
    simp at hq
    rcases hq with hq | hq
    · exact Or.inl hq
    · right
      rw [hq]
      exact query_log_limit_filtered store s.video_date today f
        (requested - s.consCount) lek.event_ts newer

/-- Instrumentation log of a loop outcome. -/
def loopQueriesOf : LoopOut → List QueryLog
  | .done s => s.queries
  | .more s => s.queries

lemma runLoop_queries_limit (store : Store) (today : Nat) (f : VideoRec → Bool)
    (newer : Option Nat) (requested : Nat) : ∀ (fuel : Nat) (s : LoopState),
    (∀ q ∈ s.queries, q.limit = 100) →
    ∀ q ∈ loopQueriesOf (runLoop store none today (some f) newer requested fuel s),
      q.limit = 100 := by
  intro fuel
  induction fuel with
  | zero =>
    intro s hs q hq
    unfold runLoop at hq
    by_cases hc : s.consCount < requested <;> simp [hc, loopQueriesOf] at hq <;>
      exact hs q hq
  | succ m ih =>
    intro s hs q hq
    unfold runLoop at hq
    by_cases hc : s.consCount < requested
    · rw [if_pos hc] at hq
      refine ih (loopStep store none today (some f) newer requested s) ?_ q hq
      intro q2 hq2
      rcases loopStep_queries_limit store today f newer requested s q2 hq2 with h | h
      · exact hs q2 h
      · exact h
    · rw [if_neg hc] at hq
      exact hs q hq

lemma runLoop_out_queries_limit (store : Store) (today : Nat) (f : VideoRec → Bool)
    (newer : Option Nat) (requested : Nat) (fuel : Nat) {s : LoopState} {out : LoopOut}
    (heq : runLoop store none today (some f) newer requested fuel s = out)
    (hbase : ∀ q ∈ s.queries, q.limit = 100) :
    ∀ q ∈ loopQueriesOf out, q.limit = 100 := by
  rw [← heq]
  exact runLoop_queries_limit store today f newer requested fuel s hbase

lemma core_queries_limit (store : Store) (today : Nat) (vd0 : Option Nat)
    (f : VideoRec → Bool) (nr : Nat) (o n : Option Nat) (fuel : Nat) :
    ∀ q ∈ queriesOf (lambda_handler_core store today none vd0 (some f) nr o n fuel),
      q.limit = 100 := by
  intro q hq
  unfold lambda_handler_core at hq
  simp only at hq
  generalize hvd : (if ((none : Option String).isNone && vd0.isNone) = true
    then some today else vd0) = vd at hq
  have hbase : ∀ q2 ∈ [(query_videos store none vd today (some f) nr o n).2],
      q2.limit = 100 := by
    intro q2 hq2
    simp at hq2
    rw [hq2]
    exact query_log_limit_filtered store vd today f nr o n
  generalize hfm : (if (query_videos store none vd today (some f) nr o n).1.Count < nr
    then n.isNone else false) = fm at hq
  cases fm with
  | false =>
    simp only [Bool.false_eq_true, if_false, queriesOf] at hq
    exact hbase q hq
  | true =>
    simp only [if_true] at hq
    split at hq
    case _ s heq =>
      simp only [queriesOf] at hq
      exact runLoop_out_queries_limit store today f n nr fuel heq (by simpa using hbase) q
        (by simpa [loopQueriesOf] using hq)
    case _ s heq =>
      split at hq
      · simp only [queriesOf] at hq
        exact runLoop_out_queries_limit store today f n nr fuel heq (by simpa using hbase) q
          (by simpa [loopQueriesOf] using hq)
      · split at hq
        · simp only [queriesOf] at hq
          exact runLoop_out_queries_limit store today f n nr fuel heq (by simpa using hbase) q
            (by simpa [loopQueriesOf] using hq)
        · simp only [queriesOf] at hq
          exact runLoop_out_queries_limit store today f n nr fuel heq (by simpa using hbase) q
            (by simpa [loopQueriesOf] using hq)

/-- Scenario of testable property 5 (filter over-fetch): partition
2024-05-03 (day 19846) with 200 raw records of which the 5 oldest match a
`contains "driveway"` filter on the camera name. -/
def c2_store : Store :=
  { timeline := (List.range 200).map
      (fun i => ⟨19846, i + 1, if i < 5 then "front-driveway" else "porch"⟩),
    byCamera := [] }

/-- The `contains "driveway"` filter definition of the §8.5 scenario. -/
def c2_filter : FilterDef := { operator := "contains", value := "driveway" }

set_option maxHeartbeats 1000000 in
set_option maxRecDepth 10000 in
/-- C2 counterexample: in the §8.5 scenario the raw page size the code uses
is the fixed constant 100 — not an over-fetch of at least 200 — and a second
store query is required before the 5 matching items are found, contradicting
the claim that the call returns them without a second page. -/
theorem c2_filter_overfetch_counterexample :
    (queriesOf (lambda_handler c2_store 19846 none (some 19846) (some c2_filter)
        5 none none 20)).map (fun q => q.limit) = [100, 100] ∧
    dynRequestsOf (lambda_handler c2_store 19846 none (some 19846) (some c2_filter)
        5 none none 20) = 2 := by
  constructor
  · decide
  · decide

set_option maxHeartbeats 1000000 in
set_option maxRecDepth 10000 in
/-- C2 amended: on date-based requests with a filter active, every
underlying store query is issued with the fixed raw page size 100 regardless
of the requested count; in the §8.5 scenario the 5 matching items are
returned exactly, but since the page size is 100 (smaller than the 200 raw
records) a second store query is needed when the matches lie beyond the
first raw page. -/
theorem c2_filter_overfetch_amended :
    (∀ (store : Store) (today : Nat) (vd0 : Option Nat) (f : VideoRec → Bool)
        (nr : Nat) (o n : Option Nat) (fuel : Nat),
      ∀ q ∈ queriesOf (lambda_handler_core store today none vd0 (some f) nr o n fuel),
        q.limit = 100) ∧
    (itemsOf (lambda_handler c2_store 19846 none (some 19846) (some c2_filter)
        5 none none 20)).map (fun r => r.event_ts) = [5, 4, 3, 2, 1] ∧
    (∀ r ∈ itemsOf (lambda_handler c2_store 19846 none (some 19846) (some c2_filter)
        5 none none 20), strContains r.camera_name "driveway" = true) ∧
    countOf (lambda_handler c2_store 19846 none (some 19846) (some c2_filter)
        5 none none 20) = 5 := by
  refine ⟨core_queries_limit, by decide, by decide, by decide⟩

set_option maxHeartbeats 1000000 in
set_option maxRecDepth 10000 in
/-- Witness for C2 amended at the concrete §8.5 run: its first issued query
is in the log and has raw page size 100. -/
theorem c2_filter_overfetch_amended_witness :
    (({ table := "security_video_timeline", date := some 19846, camera := none,
        limit := 100, older := none, newer := none } : QueryLog) ∈
      queriesOf (lambda_handler_core c2_store 19846 none (some 19846)
        (some (fun r => strContains r.camera_name "driveway")) 5 none none 20)) ∧
    ({ table := "security_video_timeline", date := some 19846, camera := none,
        limit := 100, older := none, newer := none } : QueryLog).limit = 100 :=
  ⟨by decide,
   c2_filter_overfetch_amended.1 c2_store 19846 (some 19846)
     (fun r => strContains r.camera_name "driveway") 5 none none 20
     { table := "security_video_timeline", date := some 19846, camera := none,
       limit := 100, older := none, newer := none } (by decide)⟩

/-- The empty store of the C4 scenario: no records in either table. -/
def c4_empty_store : Store := { timeline := [], byCamera := [] }

lemma query_videos_empty (cam : Option String) (vd : Option Nat) (today : Nat)
    (fe : Option (VideoRec → Bool)) (nr : Nat) (o n : Option Nat) :
    (query_videos c4_empty_store cam vd today fe nr o n).1 =
      { Items := [], Count := 0, ScannedCount := 0, LastEvaluatedKey := none } := by
  unfold query_videos
  simp only [c4_empty_store]
  split <;> cases fe <;> split_ifs <;> simp [List.insertionSort, mkLekTimeline, mkLekCamera]

lemma loopStep_c4 (today : Nat) (s : LoopState) (d : Nat) (hd : s.video_date = some d)
    (hlek : s.ddb.LastEvaluatedKey = none) :
    loopStep c4_empty_store none today none none 10 s =
      { video_date := some (d - 1), older_than_ts := none,
        ddb := { Items := [], Count := 0, ScannedCount := 0, LastEvaluatedKey := none },
        consItems := s.consItems, consCount := s.consCount,
        request_num := s.request_num + 1,
        queries := s.queries ++ [(query_videos c4_empty_store none (some (d - 1)) today none
          (10 - s.consCount) none none).2] } := by
  unfold loopStep
  rw [hlek, hd]
  simp [query_videos_empty]

lemma c4_loop (today : Nat) : ∀ (fuel : Nat) (s : LoopState),
    s.consCount = 0 →
    s.ddb = { Items := [], Count := 0, ScannedCount := 0, LastEvaluatedKey := none } →
    s.video_date.isSome = true →
    ∃ s2, runLoop c4_empty_store none today none none 10 fuel s = .more s2 ∧
      s2.queries.length = s.queries.length + fuel := by
  intro fuel
  induction fuel with
  | zero =>
    intro s hc _ _
    refine ⟨s, ?_, by omega⟩
    unfold runLoop
    rw [if_pos (by omega)]
  | succ m ih =>
    intro s hc hddb hvd
    obtain ⟨d, hd⟩ := Option.isSome_iff_exists.mp hvd
    have hlek : s.ddb.LastEvaluatedKey = none := by rw [hddb]
    have hstep := loopStep_c4 today s d hd hlek
    obtain ⟨s2, hrun, hlen⟩ := ih (loopStep c4_empty_store none today none none 10 s)
      (by rw [hstep]; exact hc) (by rw [hstep]) (by rw [hstep]; rfl)
    refine ⟨s2, ?_, ?_⟩
    · unfold runLoop
      rw [if_pos (by omega)]
      exact hrun
    · rw [hlen, hstep]
      simp
      omega

/-- C4: the pagination loop has no iteration or partition-walk guard.  On a
date-based request over a store with no matching records the loop walks one
calendar day back per iteration, issuing one store query per day, and never
terminates: for every fuel bound the run is still unfinished, having made
`fuel + 1` store round-trips.  This contradicts the claim that a guard
bounds the number of store round-trips per call. -/
theorem c4_no_iteration_guard :
    ∀ fuel : Nat, ∃ s,
      lambda_handler_core c4_empty_store 19846 none (some 19846) none 10 none none fuel =
        Outcome.fuelOut s ∧
      s.queries.length = fuel + 1 := by
  intro fuel
  unfold lambda_handler_core
  simp only [query_videos_empty]
  obtain ⟨s2, hrun, hlen⟩ := c4_loop 19846 fuel
    { video_date := some 19846, older_than_ts := none,
      ddb := { Items := [], Count := 0, ScannedCount := 0, LastEvaluatedKey := none },
      consItems := [], consCount := 0, request_num := 1,
      queries := [(query_videos c4_empty_store none (some 19846) 19846 none 10 none none).2] }
    rfl rfl rfl
  refine ⟨s2, ?_, ?_⟩
  · simp [hrun]
  · rw [hlen]
    simp only [List.length_singleton]
    omega

/-- A small store for the unknown-operator scenario: two records of
2024-05-03. -/
def c9_store : Store :=
  { timeline := [⟨19846, 11, "cam"⟩, ⟨19846, 12, "cam"⟩], byCamera := [] }

/-- A filter definition whose operator is none of `contains`,
`not_contains`, `in`. -/
def c9_filter : FilterDef := { operator := "equals", value := "cam" }

/-- C9 counterexample: with the unknown-operator filter `equals` the request
is not rejected: it runs to completion, returns a non-empty result, and that
result is identical to the unfiltered one — the unknown operator silently
degrades to "no filter". -/
theorem c9_unknown_operator_counterexample :
    lambda_handler c9_store 19846 none (some 19846) (some c9_filter) 2 none none 5 =
      lambda_handler c9_store 19846 none (some 19846) none 2 none none 5 ∧
    isOk (lambda_handler c9_store 19846 none (some 19846) (some c9_filter) 2 none none 5) =
      true ∧
    (itemsOf (lambda_handler c9_store 19846 none (some 19846) (some c9_filter)
        2 none none 5)).length = 4 := by
  refine ⟨?_, ?_, ?_⟩ <;> decide

lemma buildFilterExpression_unknown (fd : FilterDef) (h1 : fd.operator ≠ "contains")
    (h2 : fd.operator ≠ "not_contains") (h3 : fd.operator ≠ "in") :
    buildFilterExpression fd = none := by
  unfold buildFilterExpression
  simp [h1, h2, h3]

/-- C9 amended: a filter definition whose operator is not one of `contains`,
`not_contains`, `in` produces no filter expression, and the whole request
behaves exactly as if no filter had been supplied — the unfiltered result is
returned, with no error surfaced. -/
theorem c9_unknown_operator_amended (fd : FilterDef) (h1 : fd.operator ≠ "contains")
    (h2 : fd.operator ≠ "not_contains") (h3 : fd.operator ≠ "in") :
    buildFilterExpression fd = none ∧
    ∀ (store : Store) (today : Nat) (cam : Option String) (vd : Option Nat)
        (nr : Nat) (o n : Option Nat) (fuel : Nat),
      lambda_handler store today cam vd (some fd) nr o n fuel =
        lambda_handler store today cam vd none nr o n fuel := by
  have hb : buildFilterExpression fd = none := buildFilterExpression_unknown fd h1 h2 h3
  refine ⟨hb, ?_⟩
  intro store today cam vd nr o n fuel
  unfold lambda_handler
  rw [Option.some_bind, Option.none_bind, hb]

/-- Witness for C9 amended at the concrete `equals` filter and scenario. -/
theorem c9_unknown_operator_amended_witness :
    (c9_filter.operator ≠ "contains" ∧ c9_filter.operator ≠ "not_contains" ∧
      c9_filter.operator ≠ "in") ∧
    (buildFilterExpression c9_filter = none ∧
      ∀ (store : Store) (today : Nat) (cam : Option String) (vd : Option Nat)
          (nr : Nat) (o n : Option Nat) (fuel : Nat),
        lambda_handler store today cam vd (some c9_filter) nr o n fuel =
          lambda_handler store today cam vd none nr o n fuel) :=
  ⟨⟨by decide, by decide, by decide⟩,
   c9_unknown_operator_amended c9_filter (by decide) (by decide) (by decide)⟩

lemma query_videos_byCamera_ignores_filter (store : Store) (c : String) (today : Nat)
    (fe1 fe2 : Option (VideoRec → Bool)) (nr : Nat) (o n : Option Nat) :
    query_videos store (some c) none today fe1 nr o n =
      query_videos store (some c) none today fe2 nr o n := rfl

lemma loopStep_camera_video_date (store : Store) (c : String) (today : Nat)
    (fe : Option (VideoRec → Bool)) (newer : Option Nat) (requested : Nat) (s : LoopState) :
    (loopStep store (some c) today fe newer requested s).video_date = s.video_date := by
  unfold loopStep
  rcases hlek : s.ddb.LastEvaluatedKey with _ | lek <;> simp

lemma loopStep_camera_ignores_filter (store : Store) (c : String) (today : Nat)
    (fe1 fe2 : Option (VideoRec → Bool)) (newer : Option Nat) (requested : Nat)
    (s : LoopState) (hvd : s.video_date = none) :
    loopStep store (some c) today fe1 newer requested s =
      loopStep store (some c) today fe2 newer requested s := by
  unfold loopStep
  rcases hlek : s.ddb.LastEvaluatedKey with _ | lek
  · simp
  · rw [hvd]
    rfl

lemma runLoop_camera_ignores_filter (store : Store) (c : String) (today : Nat)
    (fe1 fe2 : Option (VideoRec → Bool)) (newer : Option Nat) (requested : Nat) :
    ∀ (fuel : Nat) (s : LoopState), s.video_date = none →
      runLoop store (some c) today fe1 newer requested fuel s =
        runLoop store (some c) today fe2 newer requested fuel s := by
  intro fuel
  induction fuel with
  | zero => intro s _; rfl
  | succ m ih =>
    intro s hvd
    unfold runLoop
    by_cases hc : s.consCount < requested
    · rw [if_pos hc, if_pos hc,
        loopStep_camera_ignores_filter store c today fe1 fe2 newer requested s hvd]
      refine ih _ ?_
      rw [loopStep_camera_video_date, hvd]
    · rw [if_neg hc, if_neg hc]

/-- C10: on an entity-based (camera) request without an explicit date, a
supplied filter has no effect whatsoever: the per-camera store query carries
no filter expression, and the whole handler result — items, count, cursor,
request count and issued queries — is identical with and without the filter
argument. -/
theorem c10_camera_ignores_filter (store : Store) (today : Nat) (c : String)
    (fdef : Option FilterDef) (nr : Nat) (o n : Option Nat) (fuel : Nat) :
    lambda_handler store today (some c) none fdef nr o n fuel =
      lambda_handler store today (some c) none none nr o n fuel := by
  unfold lambda_handler lambda_handler_core
  rw [Option.none_bind]
  generalize (fdef.bind buildFilterExpression) = fe
  simp only [Option.isNone_some, Bool.false_and, Bool.false_eq_true, if_false]
  rw [show query_videos store (some c) none today fe nr o n =
      query_videos store (some c) none today none nr o n from rfl]
  rw [runLoop_camera_ignores_filter store c today fe none n nr fuel _ rfl]
